import Mathlib

/-!
Verification of the statistics engine of `memkeys` (`src/util/stats.cpp`),
a shallow embedding of the aggregation table, its operations and the
lifecycle controller, together with theorems settling the specification
claims about them.

The class `Stats` is implemented in `src/util/stats.cpp`; the supporting
`Stat` record, the sort comparators and the lifecycle `State` object are
declared in headers that are not part of the sources, so those parts are
modelled from the specification (each such definition says so in its doc
comment).  Real-valued quantities (request rate, bandwidth, thresholds)
are modelled over `ℚ`.
-/

namespace Memkeys

/-- Product of two rationals computed on numerators and denominators (the
library product, written so that the kernel can evaluate it on concrete
inputs; `ratMul_eq` identifies it with `a * b`). -/
def ratMul (a b : ℚ) : ℚ :=
  mkRat (a.num * b.num) (a.den * b.den)

/-- Modelled from the spec: the per-key metric record `Stat` (declared in
`stats.h`, not present in the sources): key, most recently observed size,
monotonic count and first-seen timestamp.  Timestamps are naturals. -/
structure Stat where
  key : String
  size : Nat
  count : Nat
  firstSeenAt : Nat
deriving Repr, DecidableEq

/-- Modelled from the spec: the `Stat(key, size)` constructor used by
`Stats::increment` on a fresh fingerprint: `count = 1`,
`firstSeenAt = now`. -/
def Stat.create (key : String) (size : Nat) (now : Nat) : Stat :=
  { key := key, size := size, count := 1, firstSeenAt := now }

/-- Modelled from the spec: `Stat::setSize` overwrites the observed size. -/
def Stat.setSize (s : Stat) (size : Nat) : Stat :=
  { s with size := size }

/-- Modelled from the spec: `Stat::increment` bumps the count by one. -/
def Stat.inc (s : Stat) : Stat :=
  { s with count := s.count + 1 }

/-- Modelled from the spec: `elapsed = now - firstSeenAt` (truncated at 0). -/
def Stat.elapsed (s : Stat) (now : Nat) : Nat :=
  now - s.firstSeenAt

/-- Modelled from the spec: `requestRate = count / max(elapsed, ε)`, the
lifetime-average events-per-second of the key (`requestRate_eq_div`
states it as the division it denotes). -/
def Stat.requestRate (s : Stat) (now : Nat) : ℚ :=
  mkRat s.count (max (s.elapsed now) 1)

/-- Modelled from the spec: `bandwidth = size * requestRate`. -/
def Stat.bandwidth (s : Stat) (now : Nat) : ℚ :=
  ratMul (s.size : ℚ) (s.requestRate now)

/-- The aggregation table `StatCollection`: fingerprint (`ssize_t`, here
`Int`) to `Stat`.  The unordered map is embedded as an association list. -/
abbrev StatCollection := List (Int × Stat)

/-- `_collection.find(_key)`: the stat stored under a fingerprint. -/
def findStat : StatCollection → Int → Option Stat
  | [], _ => none
  | p :: rest, k => if p.1 = k then some p.2 else findStat rest k

/-- `_collection[_key] = stat`: overwrite the entry for an existing
fingerprint in place (only reached by `Stats::increment` when the
fingerprint is present). -/
def updateStat (c : StatCollection) (k : Int) (s : Stat) : StatCollection :=
  c.map (fun p => if p.1 = k then (k, s) else p)

/-- Number of entries stored under a given fingerprint. -/
def fpCount (c : StatCollection) (k : Int) : Nat :=
  (c.filter (fun p => decide (p.1 = k))).length

/-- `Stats::increment(key, size)` (stats.cpp:71-93): hash the key; if an
entry exists for the fingerprint, overwrite its size and bump its count,
otherwise insert a fresh `Stat` with count 1.  The hash `Stat::hashKey` is
declared in the missing header, so it is an abstract parameter. -/
def Stats.increment (hashKey : String → Int) (c : StatCollection)
    (key : String) (size : Nat) (now : Nat) : StatCollection :=
  let k := hashKey key
  match findStat c k with
  | some stat => updateStat c k ((stat.setSize size).inc)
  | none => c ++ [(k, Stat.create key size now)]

/-- A run of `increment` calls for one key, each event carrying the
observed size and the time of the call. -/
def incrRun (hashKey : String → Int) (k : String)
    (evs : List (Nat × Nat)) (c : StatCollection) : StatCollection :=
  evs.foldl (fun acc ev => Stats.increment hashKey acc k ev.1 ev.2) c

/-- One scan of the body of `Stats::prune` (stats.cpp:191-209): every entry
whose request rate at scan time is below the threshold is erased, every
other entry is kept. -/
def Stats.pruneCycle (threshold : ℚ) (now : Nat) (c : StatCollection) :
    StatCollection :=
  c.filter (fun p => !decide (p.2.requestRate now < threshold))

/-- The pruning loop (stats.cpp:179-211): with threshold exactly zero the
loop only sleeps and never touches the table; otherwise it runs one scan
per cycle, at the scan times listed in `cycles`. -/
def Stats.pruneLoop (threshold : ℚ) (cycles : List Nat)
    (c : StatCollection) : StatCollection :=
  if threshold = 0 then c
  else cycles.foldl (fun acc now => Stats.pruneCycle threshold now acc) c

/-- `Stats::getStatCount` (stats.cpp:140-142). -/
def Stats.getStatCount (c : StatCollection) : Nat :=
  c.length

/-- The sort mode enumeration of `stats.h`. -/
inductive SortMode
  | mode_REQRATE
  | mode_CALLS
  | mode_SIZE
  | mode_BANDWIDTH
deriving Repr, DecidableEq

/-- The sort order enumeration of `stats.h`. -/
inductive SortOrder
  | sort_ASC
  | sort_DESC
deriving Repr, DecidableEq

/-- The metric a sort mode compares by. -/
def metricOf (m : SortMode) (now : Nat) (s : Stat) : ℚ :=
  match m with
  | .mode_CALLS => (s.count : ℚ)
  | .mode_SIZE => (s.size : ℚ)
  | .mode_REQRATE => s.requestRate now
  | .mode_BANDWIDTH => s.bandwidth now

/-- Modelled from the spec: the comparators `SortByCount`, `SortBySize`,
`SortByReqRate`, `SortByBandwidth` of the missing header sort descending
by their metric; `a` may precede `b` iff `b`'s metric is at most `a`'s. -/
def geMetric (m : SortMode) (now : Nat) (a b : Stat) : Prop :=
  metricOf m now b ≤ metricOf m now a

instance geMetric.instDecidableRel (m : SortMode) (now : Nat) :
    DecidableRel (geMetric m now) :=
  fun _ _ => inferInstanceAs (Decidable (_ ≤ _))

instance geMetric.instIsTotal (m : SortMode) (now : Nat) :
    IsTotal Stat (geMetric m now) :=
  ⟨fun a b => (le_total (metricOf m now b) (metricOf m now a)).imp id id⟩

instance geMetric.instIsTrans (m : SortMode) (now : Nat) :
    IsTrans Stat (geMetric m now) :=
  ⟨fun _ _ _ hab hbc => le_trans hbc hab⟩

/-- The `getLeaders<T>()` template body: copy the stats out of the table
and sort descending by the chosen metric (`std::sort` embedded as a
sorting function). -/
def Stats.getLeadersDesc (m : SortMode) (now : Nat) (c : StatCollection) :
    List Stat :=
  (c.map Prod.snd).insertionSort (geMetric m now)

/-- `Stats::getLeaders(mode, order)` (stats.cpp:95-115): sort descending,
then reverse the deque when ascending order was requested. -/
def Stats.getLeaders (m : SortMode) (o : SortOrder) (now : Nat)
    (c : StatCollection) : List Stat :=
  let holder := Stats.getLeadersDesc m now c
  match o with
  | .sort_ASC => holder.reverse
  | .sort_DESC => holder

/-- `std::setw(w)`: right-justify in a field of at least `w` characters,
padding with spaces on the left (longer strings are not truncated). -/
def pad (w : Nat) (s : String) : String :=
  String.mk (List.replicate (w - s.length) ' ') ++ s

/-- Round a nonnegative rational to the nearest integer, halves up. -/
def ratRound (q : ℚ) : Nat :=
  (Int.fdiv (2 * q.num + q.den) (2 * (q.den : Int))).toNat

/-- Ten times a rational, computed on the numerator. -/
def ratMulTen (q : ℚ) : ℚ :=
  mkRat (q.num * 10) q.den

/-- A tenth of a rational, computed on the denominator. -/
def ratDivTen (q : ℚ) : ℚ :=
  mkRat q.num (q.den * 10)

/-- Scale a positive rational into `[10, 100)` by powers of ten, returning
the scaled value `r` and the exponent `e` with `q = r * 10 ^ (e - 1)`. -/
def scaleInto (fuel : Nat) (q : ℚ) (e : Int) : ℚ × Int :=
  match fuel with
  | 0 => (q, e)
  | fuel + 1 =>
    if q < 10 then scaleInto fuel (ratMulTen q) (e - 1)
    else if 100 ≤ q then scaleInto fuel (ratDivTen q) (e + 1)
    else (q, e)

/-- Two-digit exponent field of C++ scientific notation. -/
def expField (e : Int) : String :=
  (if e < 0 then "e-" else "e+") ++
    (if e.natAbs < 10 then "0" else "") ++ toString e.natAbs

/-- `std::setprecision(2)` in the default float field (the formatting used
by `Stats::printStats`, which never sets `std::fixed`): like printf `%.2g`,
at most two significant digits, trailing zeros and a trailing decimal
point removed, scientific notation once the decimal exponent leaves
`[-4, 1]`.  Rendering of a positive rational. -/
def fmtG2pos (q : ℚ) : String :=
  let re := scaleInto (q.num.natAbs + q.den + 4) q 1
  let m0 := ratRound re.1
  let me := if 100 ≤ m0 then ((10 : Nat), re.2 + 1) else (m0, re.2)
  let d1 := me.1 / 10
  let d2 := me.1 % 10
  let e := me.2
  if 2 ≤ e ∨ e ≤ -5 then
    (if d2 = 0 then toString d1 else toString d1 ++ "." ++ toString d2) ++
      expField e
  else if e = 1 then
    toString me.1
  else if e = 0 then
    if d2 = 0 then toString d1 else toString d1 ++ "." ++ toString d2
  else
    "0." ++ String.mk (List.replicate (e.natAbs - 1) '0') ++
      (if d2 = 0 then toString d1 else toString d1 ++ toString d2)

/-- Default-field precision-2 rendering of any rational (rates and
bandwidths are nonnegative; zero prints as `0`). -/
def fmtG2 (q : ℚ) : String :=
  if q = 0 then "0"
  else if q < 0 then "-" ++ fmtG2pos q.neg
  else fmtG2pos q

/-- Rendering following the spec's words, for comparison with the code:
a fixed-point number with exactly two digits after the decimal point. -/
def fmtFixed2 (q : ℚ) : String :=
  let n := ratRound (mkRat (q.num * 100) q.den)
  toString (n / 100) ++ "." ++
    (if n % 100 < 10 then "0" else "") ++ toString (n % 100)

/-- The header line of `Stats::printStats` (stats.cpp:122-127). -/
def headerLine : String :=
  pad 110 "Key" ++ ", " ++ pad 10 "Count" ++ ", " ++ pad 10 "Elapsed" ++
    ", " ++ pad 10 "Rate" ++ ", " ++ pad 10 "Size" ++ ", " ++ pad 10 "BW"

/-- One data row of `Stats::printStats` (stats.cpp:131-136). -/
def statRow (now : Nat) (s : Stat) : String :=
  pad 110 s.key ++ ", " ++ pad 10 (toString s.count) ++ ", " ++
    pad 10 (toString (s.elapsed now)) ++ ", " ++
    pad 10 (fmtG2 (s.requestRate now)) ++ ", " ++
    pad 10 (toString s.size) ++ ", " ++ pad 10 (fmtG2 (s.bandwidth now))

/-- One data row rendered as the spec describes it, with rate and
bandwidth carrying exactly two decimal digits (for comparison with
`statRow`). -/
def statRowFixed2 (now : Nat) (s : Stat) : String :=
  pad 110 s.key ++ ", " ++ pad 10 (toString s.count) ++ ", " ++
    pad 10 (toString (s.elapsed now)) ++ ", " ++
    pad 10 (fmtFixed2 (s.requestRate now)) ++ ", " ++
    pad 10 (toString s.size) ++ ", " ++ pad 10 (fmtFixed2 (s.bandwidth now))

/-- The row loop of `Stats::printStats` (stats.cpp:129-137): walk the
sorted deque while the row counter stays below `size`. -/
def printRows (now : Nat) : List Stat → Nat → List String
  | [], _ => []
  | _ :: _, 0 => []
  | s :: rest, n + 1 => statRow now s :: printRows now rest n

/-- `Stats::printStats(size)` (stats.cpp:117-138): take the count-sorted
leaderboard, print the header when the deque is non-empty, then print at
most `size` rows.  The produced lines, in order. -/
def Stats.printStats (size : Nat) (now : Nat) (c : StatCollection) :
    List String :=
  let q := Stats.getLeadersDesc .mode_CALLS now c
  (if 0 < q.length then [headerLine] else []) ++ printRows now q size

/-- The lifecycle states of the `State` object (`state.h`, missing from
the sources); the spec gives `NEW → RUNNING → STOPPING → TERMINATED`. -/
inductive LifecycleState
  | state_NEW
  | state_RUNNING
  | state_STOPPING
  | state_TERMINATED
deriving Repr, DecidableEq

/-- Modelled from the spec: `State::checkAndSet(old, new)` — atomic
compare-and-set, returning whether the transition fired and the state
afterwards. -/
def checkAndSet (old new s : LifecycleState) : Bool × LifecycleState :=
  if s = old then (true, new) else (false, s)

/-- Which loop a spawned background thread runs. -/
inductive LoopKind
  | pruneLoop
  | collectLoop
deriving Repr, DecidableEq

/-- The lifecycle-relevant fields of a `Stats` object: the state machine
and the two thread handles (`reaper_thread` runs `prune`, `poller_thread`
runs `collect`). -/
structure Engine where
  state : LifecycleState
  reaperThread : Option LoopKind
  pollerThread : Option LoopKind
deriving Repr, DecidableEq

/-- A freshly constructed `Stats` object: default `State`, no threads. -/
def Engine.initial : Engine :=
  { state := .state_NEW, reaperThread := none, pollerThread := none }

/-- `Stats::start` (stats.cpp:48-56): on `NEW → RUNNING` spawn the reaper
(prune) thread and the poller (collect) thread; otherwise only warn. -/
def Stats.start (e : Engine) : Engine :=
  match checkAndSet .state_NEW .state_RUNNING e.state with
  | (true, s) =>
    { state := s, reaperThread := some .pruneLoop,
      pollerThread := some .collectLoop }
  | (false, _) => e

/-- `Stats::shutdown` (stats.cpp:58-69): on `RUNNING → STOPPING` join
`reaper_thread`, then `poller_thread` (each join unbounded); otherwise
only warn.  The second component lists the loops joined, in order. -/
def Stats.shutdown (e : Engine) : Engine × List LoopKind :=
  match checkAndSet .state_RUNNING .state_STOPPING e.state with
  | (true, s) =>
    ({ e with state := s }, e.reaperThread.toList ++ e.pollerThread.toList)
  | (false, _) => (e, [])

/-- The cumulative effect of a run of `increment` calls on the stat of the
affected fingerprint. -/
def applyEvents (st : Stat) (evs : List (Nat × Nat)) : Stat :=
  evs.foldl (fun s ev => (s.setSize ev.1).inc) st

/-- The table invariant of the spec: every stored stat has `count ≥ 1`. -/
def countInv (c : StatCollection) : Prop :=
  ∀ p ∈ c, 1 ≤ p.2.count

/-! ### Arithmetic bridge lemmas -/

theorem ratMul_eq (a b : ℚ) : ratMul a b = a * b := by
  unfold ratMul
  rw [Rat.mkRat_eq_div]
  push_cast
  rw [← div_mul_div_comm, Rat.num_div_den, Rat.num_div_den]

theorem Stat.requestRate_eq_div (s : Stat) (now : Nat) :
    s.requestRate now = (s.count : ℚ) / (max (s.elapsed now) 1 : Nat) := by
  unfold Stat.requestRate
  rw [Rat.mkRat_eq_div]
  norm_num

/-! ### Table lemmas -/

theorem findStat_updateStat_self (c : StatCollection) (k : Int) (s st : Stat)
    (h : findStat c k = some st) :
    findStat (updateStat c k s) k = some s := by
  induction c with
  | nil => simp [findStat] at h
  | cons p rest ih =>
    by_cases hp : p.1 = k
    · simp [findStat, updateStat, hp]
    · simp only [findStat, hp, if_false] at h
      simpa [findStat, updateStat, hp] using ih h

theorem findStat_updateStat_ne (c : StatCollection) (k k' : Int) (s : Stat)
    (hne : k' ≠ k) :
    findStat (updateStat c k s) k' = findStat c k' := by
  induction c with
  | nil => rfl
  | cons p rest ih =>
    obtain ⟨p1, p2⟩ := p
    simp only [updateStat, List.map_cons] at ih ⊢
    by_cases hp : p1 = k
    · subst hp
      simp [findStat, Ne.symm hne, ih]
    · simp only [hp, if_false]
      by_cases hp' : p1 = k'
      · simp [findStat, hp', ih]
      · simp [findStat, hp', ih]

theorem fpCount_updateStat (c : StatCollection) (k k' : Int) (s : Stat) :
    fpCount (updateStat c k s) k' = fpCount c k' := by
  induction c with
  | nil => rfl
  | cons p rest ih =>
    obtain ⟨p1, p2⟩ := p
    simp only [updateStat, fpCount, List.map_cons] at ih ⊢
    by_cases hp : p1 = k
    · subst hp
      by_cases hk : p1 = k'
      · subst hk
        simp [List.filter, ih]
      · simp [List.filter, hk, ih]
    · simp only [hp, if_false]
      by_cases hp' : p1 = k' <;> simp [List.filter, hp', ih]

theorem findStat_append_some (c c' : StatCollection) (k : Int) (st : Stat)
    (h : findStat c k = some st) :
    findStat (c ++ c') k = some st := by
  induction c with
  | nil => simp [findStat] at h
  | cons p rest ih =>
    by_cases hp : p.1 = k
    · simp [findStat, hp] at h ⊢; exact h
    · simp only [findStat, hp, if_false] at h
      simpa [findStat, hp] using ih h

theorem findStat_append_self (c : StatCollection) (k : Int) (s : Stat)
    (h : findStat c k = none) :
    findStat (c ++ [(k, s)]) k = some s := by
  induction c with
  | nil => simp [findStat]
  | cons p rest ih =>
    by_cases hp : p.1 = k
    · simp [findStat, hp] at h
    · simp only [findStat, hp, if_false] at h
      simpa [findStat, hp] using ih h

theorem fpCount_eq_zero (c : StatCollection) (k : Int)
    (h : findStat c k = none) : fpCount c k = 0 := by
  induction c with
  | nil => rfl
  | cons p rest ih =>
    by_cases hp : p.1 = k
    · simp [findStat, hp] at h
    · simp only [findStat, hp, if_false] at h
      simpa [fpCount, List.filter, hp] using ih h

theorem fpCount_append_single (c : StatCollection) (k : Int) (s : Stat) :
    fpCount (c ++ [(k, s)]) k = fpCount c k + 1 := by
  simp [fpCount, List.filter_append, List.filter]

/-! ### Lemmas about `Stats.increment` runs -/

theorem increment_found (hashKey : String → Int) (c : StatCollection)
    (key : String) (size now : Nat) (st : Stat)
    (h : findStat c (hashKey key) = some st) :
    Stats.increment hashKey c key size now =
      updateStat c (hashKey key) ((st.setSize size).inc) := by
  simp [Stats.increment, h]

theorem increment_notFound (hashKey : String → Int) (c : StatCollection)
    (key : String) (size now : Nat)
    (h : findStat c (hashKey key) = none) :
    Stats.increment hashKey c key size now =
      c ++ [(hashKey key, Stat.create key size now)] := by
  simp [Stats.increment, h]

theorem applyEvents_count (st : Stat) (evs : List (Nat × Nat)) :
    (applyEvents st evs).count = st.count + evs.length := by
  induction evs generalizing st with
  | nil => rfl
  | cons e rest ih =>
    simp [applyEvents, List.foldl_cons] at ih ⊢
    rw [ih]
    simp [Stat.setSize, Stat.inc]
    omega

theorem applyEvents_firstSeenAt (st : Stat) (evs : List (Nat × Nat)) :
    (applyEvents st evs).firstSeenAt = st.firstSeenAt := by
  induction evs generalizing st with
  | nil => rfl
  | cons e rest ih =>
    simp [applyEvents, List.foldl_cons] at ih ⊢
    rw [ih]
    simp [Stat.setSize, Stat.inc]

theorem applyEvents_size (st : Stat) (evs : List (Nat × Nat)) :
    (applyEvents st evs).size = (evs.getLast?.map Prod.fst).getD st.size := by
  induction evs generalizing st with
  | nil => rfl
  | cons e rest ih =>
    simp only [applyEvents, List.foldl_cons] at ih ⊢
    rw [ih]
    cases rest with
    | nil => simp [Stat.setSize, Stat.inc]
    | cons e' rest' =>
      simp [List.getLast?_eq_getLast (e' :: rest') (List.cons_ne_nil e' rest')]

theorem incrRun_found (hashKey : String → Int) (k : String)
    (evs : List (Nat × Nat)) (c : StatCollection) (st : Stat)
    (h : findStat c (hashKey k) = some st) :
    findStat (incrRun hashKey k evs c) (hashKey k) =
        some (applyEvents st evs) ∧
      fpCount (incrRun hashKey k evs c) (hashKey k) =
        fpCount c (hashKey k) := by
  induction evs generalizing c st with
  | nil => exact ⟨h, rfl⟩
  | cons e rest ih =>
    have hstep := increment_found hashKey c k e.1 e.2 st h
    have hfind := findStat_updateStat_self c (hashKey k)
      ((st.setSize e.1).inc) st h
    have := ih (updateStat c (hashKey k) ((st.setSize e.1).inc))
      ((st.setSize e.1).inc) hfind
    refine ⟨?_, ?_⟩
    · simpa [incrRun, List.foldl_cons, hstep, applyEvents] using this.1
    · have hcnt := fpCount_updateStat c (hashKey k) (hashKey k)
        ((st.setSize e.1).inc)
      simpa [incrRun, List.foldl_cons, hstep, hcnt] using this.2

/-! ### Claim C1 -/

/-- C1: starting from a table with no entry for `k`'s fingerprint, a run
of `N` calls `increment(k, s_1) .. increment(k, s_N)` with no intervening
eviction leaves exactly one entry for the fingerprint, holding
`count = N` and `size = s_N` (last write wins); the first call creates
the entry with `count = 1`. -/
theorem C1_increment_run (hashKey : String → Int) (c : StatCollection)
    (k : String) (evs : List (Nat × Nat)) (hne : evs ≠ [])
    (h0 : findStat c (hashKey k) = none) :
    (∃ st : Stat,
      findStat (incrRun hashKey k evs c) (hashKey k) = some st ∧
        st.count = evs.length ∧ st.size = (evs.getLast hne).1) ∧
    fpCount (incrRun hashKey k evs c) (hashKey k) = 1 ∧
    findStat (Stats.increment hashKey c k (evs.head hne).1 (evs.head hne).2)
        (hashKey k) =
      some (Stat.create k (evs.head hne).1 (evs.head hne).2) ∧
    (Stat.create k (evs.head hne).1 (evs.head hne).2).count = 1 := by
  cases evs with
  | nil => exact absurd rfl hne
  | cons e rest =>
    have hstep := increment_notFound hashKey c k e.1 e.2 h0
    have hfind : findStat (c ++ [(hashKey k, Stat.create k e.1 e.2)])
        (hashKey k) = some (Stat.create k e.1 e.2) :=
      findStat_append_self c _ _ h0
    have hrun := incrRun_found hashKey k rest
      (c ++ [(hashKey k, Stat.create k e.1 e.2)]) (Stat.create k e.1 e.2)
      hfind
    have hcons : incrRun hashKey k (e :: rest) c =
        incrRun hashKey k rest (c ++ [(hashKey k, Stat.create k e.1 e.2)]) := by
      simp [incrRun, List.foldl_cons, hstep]
    have hcnt : fpCount (c ++ [(hashKey k, Stat.create k e.1 e.2)])
        (hashKey k) = 1 := by
      rw [fpCount_append_single, fpCount_eq_zero c _ h0]
    refine ⟨⟨applyEvents (Stat.create k e.1 e.2) rest, ?_, ?_, ?_⟩, ?_, ?_, rfl⟩
    · rw [hcons]; exact hrun.1
    · rw [applyEvents_count]; simp [Stat.create]; omega
    · rw [applyEvents_size]
      cases rest with
      | nil => simp [Stat.create]
      | cons e' rest' =>
        rw [List.getLast?_eq_getLast (e' :: rest') (List.cons_ne_nil e' rest')]
        simp [List.getLast_cons]
    · rw [hcons, hrun.2, hcnt]
    · simp only [List.head_cons]; rw [hstep]; simpa using hfind

/-- Witness for C1 at a concrete run: two increments of key `"ab"` with
sizes 5 then 7 on the empty table. -/
theorem C1_increment_run_witness :
    (∃ st : Stat,
      findStat (incrRun (fun s => (s.length : Int)) "ab" [(5, 0), (7, 1)] [])
          ((fun s => (s.length : Int)) "ab") = some st ∧
        st.count = ([(5, 0), (7, 1)] : List (Nat × Nat)).length ∧
        st.size = (([(5, 0), (7, 1)] : List (Nat × Nat)).getLast
          (by decide)).1) ∧
    fpCount (incrRun (fun s => (s.length : Int)) "ab" [(5, 0), (7, 1)] [])
        ((fun s => (s.length : Int)) "ab") = 1 ∧
    findStat (Stats.increment (fun s => (s.length : Int)) [] "ab" 5 0)
        ((fun s => (s.length : Int)) "ab") = some (Stat.create "ab" 5 0) ∧
    (Stat.create "ab" 5 0).count = 1 :=
  C1_increment_run (fun s => (s.length : Int)) [] "ab" [(5, 0), (7, 1)]
    (by decide) rfl

/-! ### Claims C2 and C3 -/

/-- C2: with a positive discard threshold, one pruning cycle removes
exactly the entries whose request rate at scan time is below the
threshold: every survivor has `requestRate ≥ T`, every removed entry had
`requestRate < T`, and the cycle adds nothing (the result is a sublist of
the original table). -/
theorem C2_pruneCycle (T : ℚ) (_hT : 0 < T) (now : Nat) (c : StatCollection) :
    (Stats.pruneCycle T now c).Sublist c ∧
    (∀ p ∈ Stats.pruneCycle T now c, T ≤ p.2.requestRate now) ∧
    (∀ p ∈ c, p ∉ Stats.pruneCycle T now c → p.2.requestRate now < T) := by
  refine ⟨List.filter_sublist c, ?_, ?_⟩
  · intro p hp
    have hmem := List.mem_filter.mp hp
    have : ¬ p.2.requestRate now < T := by simpa using hmem.2
    exact not_lt.mp this
  · intro p hp hnot
    by_contra h
    exact hnot (List.mem_filter.mpr ⟨hp, by simpa using h⟩)

/-- Witness for C2: threshold 1 at time 2 on a one-entry table whose
entry has rate 1/2. -/
theorem C2_pruneCycle_witness :
    (Stats.pruneCycle 1 2 [((0 : Int), Stat.create "a" 1 0)]).Sublist
        [((0 : Int), Stat.create "a" 1 0)] ∧
    (∀ p ∈ Stats.pruneCycle 1 2 [((0 : Int), Stat.create "a" 1 0)],
      (1 : ℚ) ≤ p.2.requestRate 2) ∧
    (∀ p ∈ [((0 : Int), Stat.create "a" 1 0)],
      p ∉ Stats.pruneCycle 1 2 [((0 : Int), Stat.create "a" 1 0)] →
        p.2.requestRate 2 < 1) :=
  C2_pruneCycle 1 (by norm_num) 2 [((0 : Int), Stat.create "a" 1 0)]

/-- C3: with discard threshold exactly zero the pruning loop never touches
the table — any number of cycles leaves the table, and hence
`getStatCount`, unchanged; moreover even a single scan with threshold
zero would remove nothing, because request rates are never negative. -/
theorem C3_pruneLoop_zero (cycles : List Nat) (c : StatCollection) :
    Stats.pruneLoop 0 cycles c = c ∧
    Stats.getStatCount (Stats.pruneLoop 0 cycles c) = Stats.getStatCount c ∧
    ∀ now, Stats.pruneCycle 0 now c = c := by
  have hrate : ∀ (p : Int × Stat) (now : Nat), ¬ p.2.requestRate now < 0 := by
    intro p now
    rw [not_lt, Stat.requestRate_eq_div]
    positivity
  have hcyc : ∀ now, Stats.pruneCycle 0 now c = c := by
    intro now
    unfold Stats.pruneCycle
    refine List.filter_eq_self.mpr ?_
    intro p _
    simpa using hrate p now
  have hloop : Stats.pruneLoop 0 cycles c = c := by
    unfold Stats.pruneLoop
    simp
  exact ⟨hloop, by rw [hloop], hcyc⟩

/-! ### Claims C4 and C8: lifecycle -/

/-- C4, counterexample to the claimed join order: starting the engine and
shutting it down joins the pruning (reaper) loop first and the ingestion
(collect) loop second — not the ingestion loop first as claimed. -/
theorem C4_join_order_counterexample :
    (Stats.shutdown (Stats.start Engine.initial)).2 =
      [LoopKind.pruneLoop, LoopKind.collectLoop] ∧
    (Stats.shutdown (Stats.start Engine.initial)).2 ≠
      [LoopKind.collectLoop, LoopKind.pruneLoop] := by
  decide

/-- C4 (amended): `shutdown()` in the RUNNING state, with the threads as
spawned by `start()`, transitions to STOPPING and then waits for the two
loops in order: the pruning (reaper) loop first, then the ingestion
(collect) loop. -/
theorem C4_shutdown_joins (e : Engine) (h : e.state = .state_RUNNING)
    (hr : e.reaperThread = some .pruneLoop)
    (hp : e.pollerThread = some .collectLoop) :
    (Stats.shutdown e).1.state = .state_STOPPING ∧
    (Stats.shutdown e).2 = [.pruneLoop, .collectLoop] := by
  simp [Stats.shutdown, checkAndSet, h, hr, hp]

/-- Witness for the amended C4 on the engine produced by `start()`. -/
theorem C4_shutdown_joins_witness :
    (Stats.shutdown (Stats.start Engine.initial)).1.state =
      LifecycleState.state_STOPPING ∧
    (Stats.shutdown (Stats.start Engine.initial)).2 =
      [LoopKind.pruneLoop, LoopKind.collectLoop] :=
  C4_shutdown_joins (Stats.start Engine.initial) (by decide) (by decide)
    (by decide)

/-- C8: lifecycle misuse is a non-throwing no-op: `start()` in any state
other than NEW leaves the state and both thread handles unchanged, and
`shutdown()` in any state other than RUNNING changes no state and joins
nothing. -/
theorem C8_lifecycle_noop (e : Engine) :
    (e.state ≠ .state_NEW → Stats.start e = e) ∧
    (e.state ≠ .state_RUNNING → Stats.shutdown e = (e, [])) := by
  constructor
  · intro h
    simp [Stats.start, checkAndSet, h]
  · intro h
    simp [Stats.shutdown, checkAndSet, h]

/-- Witness for C8: a second `start()` on a running engine, and a
`shutdown()` without a prior successful `start()`. -/
theorem C8_lifecycle_noop_witness :
    Stats.start
        { state := .state_RUNNING, reaperThread := some .pruneLoop,
          pollerThread := some .collectLoop } =
      { state := .state_RUNNING, reaperThread := some .pruneLoop,
        pollerThread := some .collectLoop } ∧
    Stats.shutdown Engine.initial = (Engine.initial, []) :=
  ⟨(C8_lifecycle_noop _).1 (by decide), (C8_lifecycle_noop _).2 (by decide)⟩

/-! ### Claims C6 and C7: leaderboard ordering -/

/-- C6: the sequence returned by `getLeaders(count, descending)` is
non-increasing in count. -/
theorem C6_leaders_count_sorted (now : Nat) (c : StatCollection) :
    (Stats.getLeaders .mode_CALLS .sort_DESC now c).Pairwise
      (fun a b => b.count ≤ a.count) := by
  have h := List.sorted_insertionSort (geMetric .mode_CALLS now)
    (c.map Prod.snd)
  refine List.Pairwise.imp ?_ h
  intro a b hab
  have hq : (b.count : ℚ) ≤ (a.count : ℚ) := hab
  exact_mod_cast hq

/-- C7: for every metric, `getLeaders(m, ascending)` is the exact reverse
of `getLeaders(m, descending)` — same elements (a permutation of the
table's stats), tied elements' relative order reversed. -/
theorem C7_leaders_asc_reverse (m : SortMode) (now : Nat)
    (c : StatCollection) :
    Stats.getLeaders m .sort_ASC now c =
      (Stats.getLeaders m .sort_DESC now c).reverse ∧
    (Stats.getLeaders m .sort_ASC now c).Perm (c.map Prod.snd) := by
  refine ⟨rfl, ?_⟩
  exact (List.reverse_perm _).trans
    (List.perm_insertionSort (geMetric m now) (c.map Prod.snd))

/-! ### Claim C9: table invariants -/

theorem mem_updateStat (c : StatCollection) (k : Int) (s : Stat)
    (p : Int × Stat) (hp : p ∈ updateStat c k s) :
    p ∈ c ∨ p = (k, s) := by
  unfold updateStat at hp
  obtain ⟨q, hq, hfq⟩ := List.mem_map.mp hp
  by_cases h : q.1 = k
  · right
    rw [← hfq]
    simp [h]
  · left
    rw [← hfq]
    simpa [h] using hq

/-- C9: every operation preserves the invariant `count ≥ 1` on every
entry of the table; `increment` never changes the `firstSeenAt` of an
entry that was already present (for any fingerprint), a pruning scan
keeps surviving entries literally unchanged, and every stat returned by
`getLeaders` is one of the table's stats (the read-only operations do not
modify the table at all, being pure functions of it). -/
theorem C9_invariants (hashKey : String → Int) (c : StatCollection)
    (key : String) (size now : Nat) (T : ℚ) (m : SortMode) (o : SortOrder)
    (hInv : countInv c) :
    countInv (Stats.increment hashKey c key size now) ∧
    countInv (Stats.pruneCycle T now c) ∧
    (∀ s ∈ Stats.getLeaders m o now c, 1 ≤ s.count) ∧
    (∀ fp st st', findStat c fp = some st →
      findStat (Stats.increment hashKey c key size now) fp = some st' →
      st'.firstSeenAt = st.firstSeenAt) ∧
    (∀ p ∈ Stats.pruneCycle T now c, p ∈ c) := by
  refine ⟨?_, ?_, ?_, ?_, ?_⟩
  · intro p hp
    rcases hfind : findStat c (hashKey key) with _ | st
    · rw [increment_notFound hashKey c key size now hfind] at hp
      rcases List.mem_append.mp hp with h | h
      · exact hInv p h
      · simp only [List.mem_singleton] at h
        subst h
        simp [Stat.create]
    · rw [increment_found hashKey c key size now st hfind] at hp
      rcases mem_updateStat _ _ _ _ hp with h | h
      · exact hInv p h
      · subst h
        simp [Stat.setSize, Stat.inc]
  · intro p hp
    exact hInv p (List.mem_filter.mp hp).1
  · intro s hs
    have hmem : s ∈ (c.map Prod.snd).insertionSort (geMetric m now) := by
      cases o with
      | sort_ASC =>
        exact List.mem_reverse.mp hs
      | sort_DESC =>
        exact hs
    have := (List.mem_insertionSort (geMetric m now)).mp hmem
    obtain ⟨p, hp, hps⟩ := List.mem_map.mp this
    rw [← hps]
    exact hInv p hp
  · intro fp st st' hfound hfound'
    rcases hfind : findStat c (hashKey key) with _ | s0
    · rw [increment_notFound hashKey c key size now hfind] at hfound'
      rw [findStat_append_some c _ fp st hfound] at hfound'
      cases hfound'
      rfl
    · rw [increment_found hashKey c key size now s0 hfind] at hfound'
      by_cases hfp : fp = hashKey key
      · subst hfp
        rw [hfound] at hfind
        cases hfind
        rw [findStat_updateStat_self c (hashKey key) _ st hfound] at hfound'
        cases hfound'
        simp [Stat.setSize, Stat.inc]
      · rw [findStat_updateStat_ne c _ fp _ hfp] at hfound'
        rw [hfound] at hfound'
        cases hfound'
        rfl
  · intro p hp
    exact (List.mem_filter.mp hp).1

/-- Witness for C9 on a concrete one-entry table. -/
theorem C9_invariants_witness :
    countInv (Stats.increment (fun s => (s.length : Int))
      [((0 : Int), Stat.create "a" 1 0)] "b" 2 3) ∧
    countInv (Stats.pruneCycle 1 3 [((0 : Int), Stat.create "a" 1 0)]) ∧
    (∀ s ∈ Stats.getLeaders .mode_CALLS .sort_DESC 3
        [((0 : Int), Stat.create "a" 1 0)], 1 ≤ s.count) ∧
    (∀ fp st st',
      findStat [((0 : Int), Stat.create "a" 1 0)] fp = some st →
      findStat (Stats.increment (fun s => (s.length : Int))
        [((0 : Int), Stat.create "a" 1 0)] "b" 2 3) fp = some st' →
      st'.firstSeenAt = st.firstSeenAt) ∧
    (∀ p ∈ Stats.pruneCycle 1 3 [((0 : Int), Stat.create "a" 1 0)],
      p ∈ [((0 : Int), Stat.create "a" 1 0)]) :=
  C9_invariants (fun s => (s.length : Int))
    [((0 : Int), Stat.create "a" 1 0)] "b" 2 3 1 .mode_CALLS .sort_DESC
    (by intro p hp; simp only [List.mem_singleton] at hp; subst hp; simp [Stat.create])

/-! ### Claims C5 and C10: printStats -/

theorem leadersDesc_count_pairwise (now : Nat) (c : StatCollection) :
    (Stats.getLeadersDesc .mode_CALLS now c).Pairwise
      (fun a b => b.count ≤ a.count) := by
  have h := List.sorted_insertionSort (geMetric .mode_CALLS now)
    (c.map Prod.snd)
  refine List.Pairwise.imp ?_ h
  intro a b hab
  have hq : (b.count : ℚ) ≤ (a.count : ℚ) := hab
  exact_mod_cast hq

theorem printRows_eq_take_map (now : Nat) (q : List Stat) (n : Nat) :
    printRows now q n = (q.take n).map (statRow now) := by
  induction q generalizing n with
  | nil => cases n <;> rfl
  | cons s rest ih =>
    cases n with
    | zero => rfl
    | succ k => simp [printRows, ih]

theorem leadersDesc_length (m : SortMode) (now : Nat) (c : StatCollection) :
    (Stats.getLeadersDesc m now c).length = c.length := by
  simp [Stats.getLeadersDesc, List.length_insertionSort]

/-- C5 (amended): `printStats(n)` sorts the table by count (descending),
truncates to the first `n` entries, and renders a comma-separated
fixed-width table — header for a non-empty table, key field right-
justified to 110 characters, each numeric field to 10 characters — with
`requestRate` and `bandwidth` rendered in the C++ default floating-point
format at precision 2 (at most two significant digits), not with two
decimal digits. -/
theorem C5_printStats_layout (n now : Nat) (c : StatCollection) :
    Stats.printStats n now c =
      (if c = [] then [] else [headerLine]) ++
        ((Stats.getLeadersDesc .mode_CALLS now c).take n).map
          (statRow now) ∧
    (Stats.getLeadersDesc .mode_CALLS now c).Pairwise
      (fun a b => b.count ≤ a.count) ∧
    ∀ s : Stat, statRow now s =
      pad 110 s.key ++ ", " ++ pad 10 (toString s.count) ++ ", " ++
        pad 10 (toString (s.elapsed now)) ++ ", " ++
        pad 10 (fmtG2 (s.requestRate now)) ++ ", " ++
        pad 10 (toString s.size) ++ ", " ++
        pad 10 (fmtG2 (s.bandwidth now)) := by
  refine ⟨?_, leadersDesc_count_pairwise now c, fun s => rfl⟩
  simp only [Stats.printStats]
  rw [printRows_eq_take_map]
  by_cases hc : c = []
  · subst hc
    simp [Stats.getLeadersDesc]
  · have hpos : 0 < (Stats.getLeadersDesc .mode_CALLS now c).length := by
      rw [leadersDesc_length]
      exact List.length_pos.mpr hc
    rw [if_pos hpos, if_neg hc]

set_option maxRecDepth 100000 in
/-- C5, counterexample to the two-decimal-digit rendering: on a table
whose single entry has request rate exactly 3, `printStats` renders the
rate as `3` (C++ default float field at precision 2) where a two-decimal
rendering would produce `3.00`. -/
theorem C5_two_decimals_counterexample :
    Stats.printStats 5 1
        [((0 : Int), { key := "k", size := 7, count := 3, firstSeenAt := 0 })] =
      [headerLine,
        statRow 1 { key := "k", size := 7, count := 3, firstSeenAt := 0 }] ∧
    statRow 1 { key := "k", size := 7, count := 3, firstSeenAt := 0 } ≠
      statRowFixed2 1 { key := "k", size := 7, count := 3, firstSeenAt := 0 } ∧
    fmtG2 (Stat.requestRate
      { key := "k", size := 7, count := 3, firstSeenAt := 0 } 1) = "3" ∧
    fmtFixed2 (Stat.requestRate
      { key := "k", size := 7, count := 3, firstSeenAt := 0 } 1) = "3.00" := by
  decide

theorem printRows_zero (now : Nat) (q : List Stat) :
    printRows now q 0 = [] := by
  cases q <;> rfl

/-- C10: `printStats` emits the column-header line iff the table is
non-empty, independently of the limit: the first output line is the
header exactly when the table has entries, `printStats(0)` on a
non-empty table emits the header line and zero data rows, and
`printStats(n)` on an empty table emits nothing at all. -/
theorem C10_header_iff_nonempty (n now : Nat) (c : StatCollection) :
    ((Stats.printStats n now c).head? = some headerLine ↔ c ≠ []) ∧
    (c = [] → Stats.printStats n now c = []) ∧
    (c ≠ [] → Stats.printStats 0 now c = [headerLine]) := by
  have hempty : c = [] → Stats.printStats n now c = [] := by
    intro hc
    subst hc
    cases n <;> rfl
  have hne : ∀ k, c ≠ [] →
      (Stats.printStats k now c).head? = some headerLine := by
    intro k hc
    simp only [Stats.printStats]
    have hpos : 0 < (Stats.getLeadersDesc .mode_CALLS now c).length := by
      rw [leadersDesc_length]
      exact List.length_pos.mpr hc
    rw [if_pos hpos]
    rfl
  refine ⟨⟨?_, hne n⟩, hempty, ?_⟩
  · intro hhead hc
    rw [hempty hc] at hhead
    exact Option.noConfusion hhead
  · intro hc
    simp only [Stats.printStats]
    rw [printRows_zero]
    have hpos : 0 < (Stats.getLeadersDesc .mode_CALLS now c).length := by
      rw [leadersDesc_length]
      exact List.length_pos.mpr hc
    rw [if_pos hpos]
    rfl

/-- Witness for C10: an empty table prints nothing; a one-entry table
with limit 0 prints exactly the header. -/
theorem C10_header_iff_nonempty_witness :
    Stats.printStats 9 1 ([] : StatCollection) = [] ∧
    Stats.printStats 0 1 [((0 : Int), Stat.create "a" 1 0)] = [headerLine] :=
  ⟨(C10_header_iff_nonempty 9 1 []).2.1 rfl,
   (C10_header_iff_nonempty 0 1 [((0 : Int), Stat.create "a" 1 0)]).2.2
     (by simp)⟩
